import Mathlib

/-!
Shallow embedding of the Brainfuck interpreter engine of this repository
(TypeScript class `BrainfuckInterpreter` with its `BrainfuckState` record)
together with proofs about its behaviour.

Modelling conventions:

* A JS `Uint8Array` is modelled as a fixed size together with its contents.
  A typed-array store coerces the stored value with ToUint8 (`% 256`) and an
  out-of-range store is silently dropped, as in JS.
* JS strings (`output`, `input`, the program text) are modelled as lists:
  `output`/`input` as lists of UTF-16 code-unit values, the program as a
  list of characters.
* `programCounter` is an `Option ℕ`.  `some n` is an ordinary number.
  Reading `this.loopStack[this.loopStack.length - 1]` on an empty stack
  yields `undefined`, and the closing `this.state.programCounter++` then
  turns the counter into `NaN`; `none` models that value.  All the uses the
  source makes of the counter extend to it: `NaN >= program.length` is
  false, `program[NaN]` is `undefined` (so the switch falls through), and
  `NaN + 1` is `NaN`.
* The constructor callbacks `onOutput` and `onInputRequest` are modelled by
  presence flags; the text an `onInputRequest` call would resolve with is
  passed to `step` as an oracle argument `resp`, and the characters handed
  to `onOutput` are returned by `step` alongside the new state.
* Pointer arithmetic uses `Nat` `%`, which agrees with JS for every
  positive memory length.  (For a memory of length 0 JS produces `NaN`;
  such a memory only arises from a degenerate construction size, and no
  statement below about pointers concerns that case.)
-/

structure Uint8Array where
  size : ℕ
  data : ℕ → ℕ

def Uint8Array.length (m : Uint8Array) : ℕ := m.size

def Uint8Array.get (m : Uint8Array) (i : ℕ) : ℕ := m.data i

/-- A JS typed-array store: the value is coerced with ToUint8 (`% 256`) and
an out-of-range store is silently dropped. -/
def Uint8Array.set (m : Uint8Array) (i v : ℕ) : Uint8Array :=
  if i < m.size then { m with data := fun j => if j = i then v % 256 else m.data j } else m

/-- `new Uint8Array(n)`: a zero-initialized array of length `n`. -/
def Uint8Array.zeros (n : ℕ) : Uint8Array := { size := n, data := fun _ => 0 }

/-- The `BrainfuckState` record of the source (`memory`, `pointer`,
`programCounter`, `output`, `input`, `inputIndex`, `isRunning`,
`isPaused`). -/
structure BrainfuckState where
  memory : Uint8Array
  pointer : ℕ
  programCounter : Option ℕ
  output : List ℕ
  input : List ℕ
  inputIndex : ℕ
  isRunning : Bool
  isPaused : Bool

/-- The `BrainfuckInterpreter` class: its `state`, the bound `program`
text, the private `loopStack`, and presence of the two optional
constructor callbacks. -/
structure BrainfuckInterpreter where
  state : BrainfuckState
  program : List Char
  loopStack : List ℕ
  hasOnOutput : Bool
  hasOnInputRequest : Bool

/-- The constructor body after the `new Uint8Array(memorySize)` allocation
succeeded: every state field zero-initialized, the program text bound. -/
def newInterpreter (program : List Char) (memorySize : ℕ)
    (hasOnOutput hasOnInputRequest : Bool) : BrainfuckInterpreter :=
  { state :=
      { memory := Uint8Array.zeros memorySize
        pointer := 0
        programCounter := some 0
        output := []
        input := []
        inputIndex := 0
        isRunning := false
        isPaused := false }
    program := program
    loopStack := []
    hasOnOutput := hasOnOutput
    hasOnInputRequest := hasOnInputRequest }

/-- Truncation toward zero of a JS number (here: a rational), as performed
by ToIntegerOrInfinity inside ToIndex when a `Uint8Array` length argument
is coerced. -/
def jsTrunc (q : ℚ) : ℤ :=
  if 0 ≤ q.num then ((q.num.natAbs / q.den : ℕ) : ℤ) else -((q.num.natAbs / q.den : ℕ) : ℤ)

/-- `new BrainfuckInterpreter(program, memorySize, ...)`.  The constructor
itself performs no validation; the only check is the one JS performs inside
`new Uint8Array(memorySize)` (ToIndex): the size is truncated toward zero
and a RangeError is thrown exactly when the truncation is negative or
exceeds 2^53 - 1.  NaN and the infinities are out of scope of the rational
model. -/
def mkInterpreter (program : List Char) (memorySize : ℚ)
    (hasOnOutput hasOnInputRequest : Bool) : Except String BrainfuckInterpreter :=
  if jsTrunc memorySize < 0 ∨ (2 ^ 53 : ℤ) ≤ jsTrunc memorySize then
    Except.error "RangeError: invalid typed array length"
  else
    Except.ok (newInterpreter program (jsTrunc memorySize).toNat hasOnOutput hasOnInputRequest)

/-- `this.state.programCounter++`: ordinary increment, and `NaN` stays
`NaN`. -/
def pcSucc : Option ℕ → Option ℕ
  | some p => some (p + 1)
  | none => none

/-- The forward scan of the `[` instruction with a zero cell, walking the
rest of the program: `while (i < program.length && depth > 0) {...; i++}`.
The first argument is `program.drop i`, the remaining text from position
`i`. -/
def scanAux : List Char → ℕ → ℕ → ℕ
  | [], i, _ => i
  | c :: rest, i, depth =>
    if depth = 0 then i
    else scanAux rest (i + 1)
      (if c = '[' then depth + 1 else if c = ']' then depth - 1 else depth)

/-- The value of `i` after the `[` forward scan starting at position `i`
with nesting depth `depth`. -/
def scanLoop (program : List Char) (i depth : ℕ) : ℕ :=
  scanAux (program.drop i) i depth

/-- The `,` instruction.  If an input source is bound and the buffer is
exhausted, `await this.onInputRequest()` resolves with `resp`, which is
appended to `input`.  Then one character is consumed if available,
otherwise 0 is written. -/
def commaInstr (bf : BrainfuckInterpreter) (resp : List ℕ) : BrainfuckInterpreter × List ℕ :=
  let s1 : BrainfuckState :=
    if bf.hasOnInputRequest = true ∧ bf.state.input.length ≤ bf.state.inputIndex then
      { bf.state with input := bf.state.input ++ resp }
    else bf.state
  if s1.inputIndex < s1.input.length then
    ({ bf with state :=
        { s1 with
          memory := s1.memory.set s1.pointer (s1.input.getD s1.inputIndex 0)
          inputIndex := s1.inputIndex + 1 } }, [])
  else
    ({ bf with state := { s1 with memory := s1.memory.set s1.pointer 0 } }, [])

/-- The switch over `this.program[this.state.programCounter]` for a
program counter `pc` that is an ordinary number.  The second component is
the list of characters handed to the `onOutput` callback.  `(pointer - 1 +
length) % length` and `(cell - 1 + 256) % 256` are written `ℕ`-shifted as
`(pointer + length - 1) % length` and `(cell + 255) % 256`. -/
def execInstr (bf : BrainfuckInterpreter) (resp : List ℕ) (pc : ℕ) :
    BrainfuckInterpreter × List ℕ :=
  let c := bf.program.getD pc ' '
  if c = '>' then
    ({ bf with state :=
        { bf.state with pointer := (bf.state.pointer + 1) % bf.state.memory.length } }, [])
  else if c = '<' then
    ({ bf with state :=
        { bf.state with
          pointer := (bf.state.pointer + bf.state.memory.length - 1) % bf.state.memory.length } },
     [])
  else if c = '+' then
    ({ bf with state :=
        { bf.state with
          memory := bf.state.memory.set bf.state.pointer
            ((bf.state.memory.get bf.state.pointer + 1) % 256) } }, [])
  else if c = '-' then
    ({ bf with state :=
        { bf.state with
          memory := bf.state.memory.set bf.state.pointer
            ((bf.state.memory.get bf.state.pointer + 255) % 256) } }, [])
  else if c = '.' then
    ({ bf with state :=
        { bf.state with
          output := bf.state.output ++ [bf.state.memory.get bf.state.pointer] } },
     if bf.hasOnOutput = true then [bf.state.memory.get bf.state.pointer] else [])
  else if c = ',' then
    commaInstr bf resp
  else if c = '[' then
    if bf.state.memory.get bf.state.pointer = 0 then
      ({ bf with state :=
          { bf.state with programCounter := some (scanLoop bf.program (pc + 1) 1 - 1) } }, [])
    else
      ({ bf with loopStack := bf.loopStack ++ [pc] }, [])
  else if c = ']' then
    if bf.state.memory.get bf.state.pointer ≠ 0 then
      ({ bf with state := { bf.state with programCounter := bf.loopStack.getLast? } }, [])
    else
      ({ bf with loopStack := bf.loopStack.dropLast }, [])
  else
    (bf, [])

/-- `step()`: one transition.  Returns the new interpreter, the boolean
the source returns (`false` exactly when execution had already
terminated), and the characters handed to `onOutput` during the step. -/
def BrainfuckInterpreter.step (bf : BrainfuckInterpreter) (resp : List ℕ) :
    BrainfuckInterpreter × Bool × List ℕ :=
  match bf.state.programCounter with
  | none =>
    -- pc is NaN: `NaN >= program.length` is false, `program[NaN]` is
    -- `undefined` so no switch case applies, and `NaN++` leaves `NaN`.
    (bf, true, [])
  | some pc =>
    if bf.program.length ≤ pc then
      ({ bf with state := { bf.state with isRunning := false } }, false, [])
    else
      let r := execInstr bf resp pc
      ({ r.1 with state := { r.1.state with programCounter := pcSucc r.1.state.programCounter } },
       true, r.2)

/-- `getState()` of the pure value model: the state record, by value.  The
reference-level shallow-copy behaviour of the source's `{ ...this.state }`
is modelled separately below (`BrainfuckInterpreterRef`). -/
def BrainfuckInterpreter.getState (bf : BrainfuckInterpreter) : BrainfuckState := bf.state

/-- `reset()`: zero the memory in place, reset every state field, clear
the loop stack; the program text and the callbacks stay bound. -/
def BrainfuckInterpreter.reset (bf : BrainfuckInterpreter) : BrainfuckInterpreter :=
  { bf with
    state :=
      { memory := { size := bf.state.memory.size, data := fun _ => 0 }
        pointer := 0
        programCounter := some 0
        output := []
        input := []
        inputIndex := 0
        isRunning := false
        isPaused := false }
    loopStack := [] }

/-- `pause()`. -/
def BrainfuckInterpreter.pause (bf : BrainfuckInterpreter) : BrainfuckInterpreter :=
  { bf with state := { bf.state with isPaused := true } }

/-- The body of `run()` after the initial flag writes.  `oracle k` is the
input text an `onInputRequest` during iteration `k` would resolve with;
`pauseAt k` tells whether an external `pause()` call lands during the
`setTimeout` yield of iteration `k` (the only place the single-threaded
host can run it).  Fuel bounds the number of iterations: `none` means the
loop was still running when the fuel ran out, `some bf` that the loop
exited with state `bf`. -/
def BrainfuckInterpreter.runAux (oracle : ℕ → List ℕ) (pauseAt : ℕ → Bool) :
    ℕ → ℕ → BrainfuckInterpreter → Option BrainfuckInterpreter
  | 0, _, _ => none
  | fuel + 1, k, bf =>
    if bf.state.isRunning = true ∧ bf.state.isPaused = false then
      let r := bf.step (oracle k)
      let bf2 := if r.2.1 = true then r.1
        else { r.1 with state := { r.1.state with isRunning := false } }
      let bf3 := if pauseAt k = true then
          { bf2 with state := { bf2.state with isPaused := true } }
        else bf2
      BrainfuckInterpreter.runAux oracle pauseAt fuel (k + 1) bf3
    else some bf

/-- `run()`: set `isRunning`, clear `isPaused`, then loop. -/
def BrainfuckInterpreter.run (bf : BrainfuckInterpreter) (oracle : ℕ → List ℕ)
    (pauseAt : ℕ → Bool) (fuel : ℕ) : Option BrainfuckInterpreter :=
  BrainfuckInterpreter.runAux oracle pauseAt fuel 0
    { bf with state := { bf.state with isRunning := true, isPaused := false } }

/-- Repeated `step()` until it returns `false` (or the fuel runs out),
recording the program counter before every executed step and the
characters handed to `onOutput`. -/
def runSteps (resp : List ℕ) : ℕ → BrainfuckInterpreter →
    BrainfuckInterpreter × List ℕ × List ℕ
  | 0, bf => (bf, [], [])
  | fuel + 1, bf =>
    let r := bf.step resp
    if r.2.1 = true then
      let rest := runSteps resp fuel r.1
      (rest.1,
       (match bf.state.programCounter with | some p => [p] | none => []) ++ rest.2.1,
       r.2.2 ++ rest.2.2)
    else (r.1, [], [])

/-- States reachable from `bf` by the public mutators: `step` (with any
input-oracle answer), `pause`, entering `run` (also via `resume`), the
`isRunning := false` write of a terminating `run` loop, and the
`isPaused := false` write of `resume`. -/
inductive Reachable : BrainfuckInterpreter → BrainfuckInterpreter → Prop where
  | refl (bf : BrainfuckInterpreter) : Reachable bf bf
  | step (bf bf2 : BrainfuckInterpreter) (resp : List ℕ) :
      Reachable bf bf2 → Reachable bf (bf2.step resp).1
  | pause (bf bf2 : BrainfuckInterpreter) :
      Reachable bf bf2 → Reachable bf bf2.pause
  | runEnter (bf bf2 : BrainfuckInterpreter) :
      Reachable bf bf2 →
      Reachable bf { bf2 with state := { bf2.state with isRunning := true, isPaused := false } }
  | runExit (bf bf2 : BrainfuckInterpreter) :
      Reachable bf bf2 →
      Reachable bf { bf2 with state := { bf2.state with isRunning := false } }
  | resumeClear (bf bf2 : BrainfuckInterpreter) :
      Reachable bf bf2 →
      Reachable bf { bf2 with state := { bf2.state with isPaused := false } }

/-!
Reference-level model of the state object, for the `getState()` claim.
JS objects live on a heap; the engine's `this.state.memory` field holds a
reference into it, and the spread `{ ...this.state }` copies the scalar
fields by value but copies the `memory` field as that reference.  `step`
mutates the array in place (it never reassigns `this.state.memory`), which
the model renders as a write-back to the same heap address.
-/

/-- The JS heap of `Uint8Array` objects, addressed by naturals. -/
def JSHeap : Type := ℕ → Uint8Array

/-- An in-place mutation of the array at address `a`. -/
def heapWrite (h : JSHeap) (a : ℕ) (m : Uint8Array) : JSHeap :=
  fun b => if b = a then m else h b

/-- The `BrainfuckState` record with its `memory` field as what it really
is at runtime: a reference to a heap-allocated `Uint8Array`. -/
structure BrainfuckStateRef where
  memoryRef : ℕ
  pointer : ℕ
  programCounter : Option ℕ
  output : List ℕ
  input : List ℕ
  inputIndex : ℕ
  isRunning : Bool
  isPaused : Bool

/-- The interpreter whose state holds a memory reference. -/
structure BrainfuckInterpreterRef where
  state : BrainfuckStateRef
  program : List Char
  loopStack : List ℕ
  hasOnOutput : Bool
  hasOnInputRequest : Bool

/-- Reading the array a state's `memory` field refers to, on a given
heap. -/
def BrainfuckStateRef.readMemory (s : BrainfuckStateRef) (h : JSHeap) : Uint8Array :=
  h s.memoryRef

/-- The value-level view of a reference-level interpreter on a heap. -/
def BrainfuckInterpreterRef.toPure (bf : BrainfuckInterpreterRef) (h : JSHeap) :
    BrainfuckInterpreter :=
  { state :=
      { memory := h bf.state.memoryRef
        pointer := bf.state.pointer
        programCounter := bf.state.programCounter
        output := bf.state.output
        input := bf.state.input
        inputIndex := bf.state.inputIndex
        isRunning := bf.state.isRunning
        isPaused := bf.state.isPaused }
    program := bf.program
    loopStack := bf.loopStack
    hasOnOutput := bf.hasOnOutput
    hasOnInputRequest := bf.hasOnInputRequest }

/-- `getState()`: `return { ...this.state }`.  The spread copies the
scalar fields by value and the `memory` field as a reference; the
resulting snapshot is exactly the current `BrainfuckStateRef` value. -/
def BrainfuckInterpreterRef.getState (bf : BrainfuckInterpreterRef) : BrainfuckStateRef :=
  bf.state

/-- `step()` at the reference level: run the value-level step on the
dereferenced state and write the (in-place mutated) array back to the same
address. -/
def BrainfuckInterpreterRef.stepRef (bf : BrainfuckInterpreterRef) (resp : List ℕ)
    (h : JSHeap) : JSHeap × BrainfuckInterpreterRef × Bool × List ℕ :=
  let r := (bf.toPure h).step resp
  (heapWrite h bf.state.memoryRef r.1.state.memory,
   { state :=
       { memoryRef := bf.state.memoryRef
         pointer := r.1.state.pointer
         programCounter := r.1.state.programCounter
         output := r.1.state.output
         input := r.1.state.input
         inputIndex := r.1.state.inputIndex
         isRunning := r.1.state.isRunning
         isPaused := r.1.state.isPaused }
     program := r.1.program
     loopStack := r.1.loopStack
     hasOnOutput := r.1.hasOnOutput
     hasOnInputRequest := r.1.hasOnInputRequest },
   r.2.1, r.2.2)

/-! Concrete instances used by the counterexamples and scenarios. -/

/-- The program `++[>+++<-]>.` of Scenario B. -/
def progB : List Char := "++[>+++<-]>.".toList

/-- Scenario B interpreter: default memory size 30000, output sink bound,
no input source. -/
def bfB : BrainfuckInterpreter := newInterpreter progB 30000 true false

/-- Scenario D interpreter: the program `]` alone. -/
def bfD : BrainfuckInterpreter := newInterpreter (']' :: []) 30000 false false

/-- A freshly constructed interpreter for the program `+` (memory size 1),
at the reference level: its memory lives at heap address 0. -/
def bfRefPlus : BrainfuckInterpreterRef :=
  { state :=
      { memoryRef := 0
        pointer := 0
        programCounter := some 0
        output := []
        input := []
        inputIndex := 0
        isRunning := false
        isPaused := false }
    program := '+' :: []
    loopStack := []
    hasOnOutput := false
    hasOnInputRequest := false }

/-- A heap on which address 0 holds the freshly allocated one-cell
array. -/
def heap0 : JSHeap := fun _ => Uint8Array.zeros 1

/-- An interpreter mid-way through a run of `,` with no input source
bound, whose input buffer holds the single character `'Ā'` (UTF-16 code
unit 256). -/
def bfCommaHi : BrainfuckInterpreter :=
  { state :=
      { memory := Uint8Array.zeros 1
        pointer := 0
        programCounter := some 0
        output := []
        input := [256]
        inputIndex := 0
        isRunning := false
        isPaused := false }
    program := ',' :: []
    loopStack := []
    hasOnOutput := false
    hasOnInputRequest := false }

/-- Like `bfCommaHi` but with the plain character `'A'` (code 65)
buffered. -/
def bfCommaA : BrainfuckInterpreter :=
  { bfCommaHi with state := { bfCommaHi.state with input := [65] } }

/-- The non-integer number 5/2, given in normal form so that its
numerator and denominator are literal. -/
def fiveHalves : ℚ := ⟨5, 2, by norm_num, by norm_num⟩


/-! Helper lemmas. -/

lemma Uint8Array.size_set (m : Uint8Array) (i v : ℕ) : (m.set i v).size = m.size := by
  unfold Uint8Array.set
  split <;> rfl

lemma Uint8Array.length_set (m : Uint8Array) (i v : ℕ) : (m.set i v).length = m.length := by
  unfold Uint8Array.length
  exact Uint8Array.size_set m i v

lemma Uint8Array.get_set_self (m : Uint8Array) (i v : ℕ) (h : i < m.size) :
    (m.set i v).get i = v % 256 := by
  unfold Uint8Array.set Uint8Array.get
  rw [if_pos h]
  simp

lemma scanAux_ge (l : List Char) : ∀ i depth, i ≤ scanAux l i depth := by
  induction l with
  | nil => intro i depth; unfold scanAux; exact Nat.le_refl i
  | cons c rest ih =>
    intro i depth
    unfold scanAux
    split
    · exact Nat.le_refl i
    · exact Nat.le_trans (Nat.le_succ i) (ih (i + 1) _)

lemma scanAux_le (l : List Char) : ∀ i depth, scanAux l i depth ≤ i + l.length := by
  induction l with
  | nil => intro i depth; unfold scanAux; simp
  | cons c rest ih =>
    intro i depth
    unfold scanAux
    split
    · exact Nat.le_add_right i _
    · calc scanAux rest (i + 1) _ ≤ (i + 1) + rest.length := ih (i + 1) _
        _ = i + (c :: rest).length := by simp [List.length_cons]; omega

lemma scanLoop_ge (program : List Char) (i depth : ℕ) : i ≤ scanLoop program i depth :=
  scanAux_ge _ i depth

lemma scanLoop_le (program : List Char) (i depth : ℕ) (h : i ≤ program.length) :
    scanLoop program i depth ≤ program.length := by
  have h1 := scanAux_le (program.drop i) i depth
  have h2 : (program.drop i).length = program.length - i := List.length_drop i program
  unfold scanLoop
  omega

/-- Shape of `step` when the program counter is `NaN`. -/
lemma step_none (bf : BrainfuckInterpreter) (resp : List ℕ)
    (hpc : bf.state.programCounter = none) : bf.step resp = (bf, true, []) := by
  unfold BrainfuckInterpreter.step
  rw [hpc]

/-- Shape of `step` when the program counter is the number `q`. -/
lemma step_of_pc (bf : BrainfuckInterpreter) (resp : List ℕ) (q : ℕ)
    (hpc : bf.state.programCounter = some q) :
    bf.step resp =
      if bf.program.length ≤ q then
        ({ bf with state := { bf.state with isRunning := false } }, false, [])
      else
        ({ (execInstr bf resp q).1 with state :=
            { (execInstr bf resp q).1.state with
              programCounter := pcSucc (execInstr bf resp q).1.state.programCounter } },
         true, (execInstr bf resp q).2) := by
  unfold BrainfuckInterpreter.step
  rw [hpc]

/-- Unfolding `execInstr` at a `>` instruction. -/
lemma execInstr_gt (bf : BrainfuckInterpreter) (resp : List ℕ) (pc : ℕ)
    (hc : bf.program.getD pc ' ' = '>') :
    execInstr bf resp pc =
      ({ bf with state :=
          { bf.state with pointer := (bf.state.pointer + 1) % bf.state.memory.length } }, []) := by
  unfold execInstr
  rw [hc]
  rfl

/-- Unfolding `execInstr` at a `<` instruction. -/
lemma execInstr_lt (bf : BrainfuckInterpreter) (resp : List ℕ) (pc : ℕ)
    (hc : bf.program.getD pc ' ' = '<') :
    execInstr bf resp pc =
      ({ bf with state :=
          { bf.state with
            pointer := (bf.state.pointer + bf.state.memory.length - 1) %
              bf.state.memory.length } }, []) := by
  unfold execInstr
  rw [hc]
  rfl

/-- Unfolding `execInstr` at a `+` instruction. -/
lemma execInstr_plus (bf : BrainfuckInterpreter) (resp : List ℕ) (pc : ℕ)
    (hc : bf.program.getD pc ' ' = '+') :
    execInstr bf resp pc =
      ({ bf with state :=
          { bf.state with
            memory := bf.state.memory.set bf.state.pointer
              ((bf.state.memory.get bf.state.pointer + 1) % 256) } }, []) := by
  unfold execInstr
  rw [hc]
  rfl

/-- Unfolding `execInstr` at a `-` instruction. -/
lemma execInstr_minus (bf : BrainfuckInterpreter) (resp : List ℕ) (pc : ℕ)
    (hc : bf.program.getD pc ' ' = '-') :
    execInstr bf resp pc =
      ({ bf with state :=
          { bf.state with
            memory := bf.state.memory.set bf.state.pointer
              ((bf.state.memory.get bf.state.pointer + 255) % 256) } }, []) := by
  unfold execInstr
  rw [hc]
  rfl

/-- Unfolding `execInstr` at a `.` instruction. -/
lemma execInstr_dot (bf : BrainfuckInterpreter) (resp : List ℕ) (pc : ℕ)
    (hc : bf.program.getD pc ' ' = '.') :
    execInstr bf resp pc =
      ({ bf with state :=
          { bf.state with
            output := bf.state.output ++ [bf.state.memory.get bf.state.pointer] } },
       if bf.hasOnOutput = true then [bf.state.memory.get bf.state.pointer] else []) := by
  unfold execInstr
  rw [hc]
  rfl

/-- Unfolding `execInstr` at a `,` instruction. -/
lemma execInstr_comma (bf : BrainfuckInterpreter) (resp : List ℕ) (pc : ℕ)
    (hc : bf.program.getD pc ' ' = ',') :
    execInstr bf resp pc = commaInstr bf resp := by
  unfold execInstr
  rw [hc]
  rfl

/-- Unfolding `execInstr` at a `[` instruction. -/
lemma execInstr_lbracket (bf : BrainfuckInterpreter) (resp : List ℕ) (pc : ℕ)
    (hc : bf.program.getD pc ' ' = '[') :
    execInstr bf resp pc =
      if bf.state.memory.get bf.state.pointer = 0 then
        ({ bf with state :=
            { bf.state with
              programCounter := some (scanLoop bf.program (pc + 1) 1 - 1) } }, [])
      else
        ({ bf with loopStack := bf.loopStack ++ [pc] }, []) := by
  unfold execInstr
  rw [hc]
  rfl

/-- Unfolding `execInstr` at a `]` instruction. -/
lemma execInstr_rbracket (bf : BrainfuckInterpreter) (resp : List ℕ) (pc : ℕ)
    (hc : bf.program.getD pc ' ' = ']') :
    execInstr bf resp pc =
      if bf.state.memory.get bf.state.pointer ≠ 0 then
        ({ bf with state := { bf.state with programCounter := bf.loopStack.getLast? } }, [])
      else
        ({ bf with loopStack := bf.loopStack.dropLast }, []) := by
  unfold execInstr
  rw [hc]
  rfl

/-- Unfolding `execInstr` at a character that is none of the eight
instructions: a no-op (comment character). -/
lemma execInstr_other (bf : BrainfuckInterpreter) (resp : List ℕ) (pc : ℕ)
    (h1 : bf.program.getD pc ' ' ≠ '>') (h2 : bf.program.getD pc ' ' ≠ '<')
    (h3 : bf.program.getD pc ' ' ≠ '+') (h4 : bf.program.getD pc ' ' ≠ '-')
    (h5 : bf.program.getD pc ' ' ≠ '.') (h6 : bf.program.getD pc ' ' ≠ ',')
    (h7 : bf.program.getD pc ' ' ≠ '[') (h8 : bf.program.getD pc ' ' ≠ ']') :
    execInstr bf resp pc = (bf, []) := by
  unfold execInstr
  rw [if_neg h1, if_neg h2, if_neg h3, if_neg h4, if_neg h5, if_neg h6, if_neg h7, if_neg h8]

/-- `execInstr` never changes the bound program, the callback presence
flags, the memory length, or the run-loop flags. -/
lemma execInstr_preserves (bf : BrainfuckInterpreter) (resp : List ℕ) (pc : ℕ) :
    (execInstr bf resp pc).1.program = bf.program
    ∧ (execInstr bf resp pc).1.hasOnOutput = bf.hasOnOutput
    ∧ (execInstr bf resp pc).1.hasOnInputRequest = bf.hasOnInputRequest
    ∧ (execInstr bf resp pc).1.state.memory.size = bf.state.memory.size
    ∧ (execInstr bf resp pc).1.state.isPaused = bf.state.isPaused
    ∧ (execInstr bf resp pc).1.state.isRunning = bf.state.isRunning := by
  by_cases h1 : bf.program.getD pc ' ' = '>'
  · rw [execInstr_gt bf resp pc h1]; exact ⟨rfl, rfl, rfl, rfl, rfl, rfl⟩
  by_cases h2 : bf.program.getD pc ' ' = '<'
  · rw [execInstr_lt bf resp pc h2]; exact ⟨rfl, rfl, rfl, rfl, rfl, rfl⟩
  by_cases h3 : bf.program.getD pc ' ' = '+'
  · rw [execInstr_plus bf resp pc h3]
    exact ⟨rfl, rfl, rfl, Uint8Array.size_set _ _ _, rfl, rfl⟩
  by_cases h4 : bf.program.getD pc ' ' = '-'
  · rw [execInstr_minus bf resp pc h4]
    exact ⟨rfl, rfl, rfl, Uint8Array.size_set _ _ _, rfl, rfl⟩
  by_cases h5 : bf.program.getD pc ' ' = '.'
  · rw [execInstr_dot bf resp pc h5]; exact ⟨rfl, rfl, rfl, rfl, rfl, rfl⟩
  by_cases h6 : bf.program.getD pc ' ' = ','
  · rw [execInstr_comma bf resp pc h6]
    simp only [commaInstr]
    split_ifs <;> exact ⟨rfl, rfl, rfl, Uint8Array.size_set _ _ _, rfl, rfl⟩
  by_cases h7 : bf.program.getD pc ' ' = '['
  · rw [execInstr_lbracket bf resp pc h7]
    split_ifs <;> exact ⟨rfl, rfl, rfl, rfl, rfl, rfl⟩
  by_cases h8 : bf.program.getD pc ' ' = ']'
  · rw [execInstr_rbracket bf resp pc h8]
    split_ifs <;> exact ⟨rfl, rfl, rfl, rfl, rfl, rfl⟩
  rw [execInstr_other bf resp pc h1 h2 h3 h4 h5 h6 h7 h8]
  exact ⟨rfl, rfl, rfl, rfl, rfl, rfl⟩

/-- `step` never changes the bound program, the callback presence flags,
the memory length, or `isPaused`. -/
lemma step_preserves (bf : BrainfuckInterpreter) (resp : List ℕ) :
    (bf.step resp).1.program = bf.program
    ∧ (bf.step resp).1.hasOnOutput = bf.hasOnOutput
    ∧ (bf.step resp).1.hasOnInputRequest = bf.hasOnInputRequest
    ∧ (bf.step resp).1.state.memory.size = bf.state.memory.size
    ∧ (bf.step resp).1.state.isPaused = bf.state.isPaused := by
  cases hpc : bf.state.programCounter with
  | none => rw [step_none bf resp hpc]; exact ⟨rfl, rfl, rfl, rfl, rfl⟩
  | some q =>
    rw [step_of_pc bf resp q hpc]
    by_cases hq : bf.program.length ≤ q
    · rw [if_pos hq]; exact ⟨rfl, rfl, rfl, rfl, rfl⟩
    · rw [if_neg hq]
      have h := execInstr_preserves bf resp q
      exact ⟨h.1, h.2.1, h.2.2.1, h.2.2.2.1, h.2.2.2.2.1⟩

/-- The program counter after `pcSucc` stays within `len` provided the
old counter was strictly below `len`. -/
lemma pcSucc_le (len : ℕ) (o : Option ℕ) (h : ∀ q, o = some q → q < len) :
    ∀ r, pcSucc o = some r → r ≤ len := by
  intro r hr
  cases o with
  | none => exact absurd hr (by simp [pcSucc])
  | some q =>
    have hq := h q rfl
    simp only [pcSucc, Option.some.injEq] at hr
    omega

/-- The engine invariant: the construction parameters are intact, the
pointer is within the memory, the program counter (when a number) is at
most `program.length`, and every loop-stack entry is a valid instruction
position. -/
def EngineInv (p : List Char) (m : ℕ) (ho hi : Bool) (bf : BrainfuckInterpreter) : Prop :=
  bf.program = p ∧ bf.hasOnOutput = ho ∧ bf.hasOnInputRequest = hi ∧
  bf.state.memory.size = m ∧
  (0 < m → bf.state.pointer < m) ∧
  (∀ q, bf.state.programCounter = some q → q ≤ p.length) ∧
  (∀ x ∈ bf.loopStack, x < p.length)

lemma newInterpreter_inv (p : List Char) (m : ℕ) (ho hi : Bool) :
    EngineInv p m ho hi (newInterpreter p m ho hi) := by
  refine ⟨rfl, rfl, rfl, rfl, fun h => h, ?_, ?_⟩
  · intro q hq
    have : some 0 = some q := hq
    cases this
    exact Nat.zero_le _
  · intro x hx
    exact absurd hx (List.not_mem_nil x)

lemma step_inv (p : List Char) (m : ℕ) (ho hi : Bool) (bf : BrainfuckInterpreter)
    (resp : List ℕ) (h : EngineInv p m ho hi bf) : EngineInv p m ho hi (bf.step resp).1 := by
  obtain ⟨hp, hho, hhi, hm, hptr, hpcle, hstk⟩ := h
  subst hp
  cases hpc : bf.state.programCounter with
  | none =>
    rw [step_none bf resp hpc]
    exact ⟨rfl, hho, hhi, hm, hptr, hpcle, hstk⟩
  | some q =>
    rw [step_of_pc bf resp q hpc]
    by_cases hq : bf.program.length ≤ q
    · rw [if_pos hq]
      exact ⟨rfl, hho, hhi, hm, hptr, fun r hr => hpcle r hr, hstk⟩
    · rw [if_neg hq]
      have hqlt : q < bf.program.length := by omega
      have hpcnext : ∀ r, pcSucc bf.state.programCounter = some r → r ≤ bf.program.length :=
        pcSucc_le _ _ (fun q' hq' => by rw [hpc] at hq'; cases hq'; exact hqlt)
      by_cases h1 : bf.program.getD q ' ' = '>'
      · rw [execInstr_gt bf resp q h1]
        refine ⟨rfl, hho, hhi, hm, ?_, hpcnext, hstk⟩
        intro hm0
        show (bf.state.pointer + 1) % bf.state.memory.length < m
        have hlen : bf.state.memory.length = m := hm
        rw [hlen]
        exact Nat.mod_lt _ hm0
      by_cases h2 : bf.program.getD q ' ' = '<'
      · rw [execInstr_lt bf resp q h2]
        refine ⟨rfl, hho, hhi, hm, ?_, hpcnext, hstk⟩
        intro hm0
        show (bf.state.pointer + bf.state.memory.length - 1) % bf.state.memory.length < m
        have hlen : bf.state.memory.length = m := hm
        rw [hlen]
        exact Nat.mod_lt _ hm0
      by_cases h3 : bf.program.getD q ' ' = '+'
      · rw [execInstr_plus bf resp q h3]
        refine ⟨rfl, hho, hhi, ?_, hptr, hpcnext, hstk⟩
        show (bf.state.memory.set _ _).size = m
        rw [Uint8Array.size_set]
        exact hm
      by_cases h4 : bf.program.getD q ' ' = '-'
      · rw [execInstr_minus bf resp q h4]
        refine ⟨rfl, hho, hhi, ?_, hptr, hpcnext, hstk⟩
        show (bf.state.memory.set _ _).size = m
        rw [Uint8Array.size_set]
        exact hm
      by_cases h5 : bf.program.getD q ' ' = '.'
      · rw [execInstr_dot bf resp q h5]
        exact ⟨rfl, hho, hhi, hm, hptr, hpcnext, hstk⟩
      by_cases h6 : bf.program.getD q ' ' = ','
      · rw [execInstr_comma bf resp q h6]
        simp only [commaInstr]
        split_ifs <;>
          exact ⟨rfl, hho, hhi, by rw [Uint8Array.size_set]; exact hm, hptr, hpcnext, hstk⟩
      by_cases h7 : bf.program.getD q ' ' = '['
      · rw [execInstr_lbracket bf resp q h7]
        by_cases hz : bf.state.memory.get bf.state.pointer = 0
        · rw [if_pos hz]
          refine ⟨rfl, hho, hhi, hm, hptr, ?_, hstk⟩
          intro r hr
          have hge := scanLoop_ge bf.program (q + 1) 1
          have hle := scanLoop_le bf.program (q + 1) 1 (by omega)
          simp only [pcSucc, Option.some.injEq] at hr
          omega
        · rw [if_neg hz]
          refine ⟨rfl, hho, hhi, hm, hptr, hpcnext, ?_⟩
          intro x hx
          rcases List.mem_append.mp hx with hx | hx
          · exact hstk x hx
          · rw [List.mem_singleton] at hx
            subst hx
            exact hqlt
      by_cases h8 : bf.program.getD q ' ' = ']'
      · rw [execInstr_rbracket bf resp q h8]
        by_cases hnz : bf.state.memory.get bf.state.pointer ≠ 0
        · rw [if_pos hnz]
          refine ⟨rfl, hho, hhi, hm, hptr, ?_, hstk⟩
          cases hl : bf.loopStack.getLast? with
          | none =>
            intro r hr
            exact absurd hr (by simp [pcSucc])
          | some t =>
            intro r hr
            have ht := hstk t (List.mem_of_mem_getLast? hl)
            simp only [pcSucc, Option.some.injEq] at hr
            omega
        · rw [if_neg hnz]
          refine ⟨rfl, hho, hhi, hm, hptr, hpcnext, ?_⟩
          intro x hx
          exact hstk x (List.mem_of_mem_dropLast hx)
      rw [execInstr_other bf resp q h1 h2 h3 h4 h5 h6 h7 h8]
      exact ⟨rfl, hho, hhi, hm, hptr, hpcnext, hstk⟩

lemma reachable_inv (p : List Char) (m : ℕ) (ho hi : Bool)
    (a b : BrainfuckInterpreter) (hr : Reachable a b)
    (ha : EngineInv p m ho hi a) : EngineInv p m ho hi b := by
  induction hr with
  | refl => exact ha
  | step bf2 resp hr2 ih => exact step_inv p m ho hi bf2 resp ih
  | pause bf2 hr2 ih =>
    obtain ⟨i1, i2, i3, i4, i5, i6, i7⟩ := ih
    exact ⟨i1, i2, i3, i4, i5, i6, i7⟩
  | runEnter bf2 hr2 ih =>
    obtain ⟨i1, i2, i3, i4, i5, i6, i7⟩ := ih
    exact ⟨i1, i2, i3, i4, i5, i6, i7⟩
  | runExit bf2 hr2 ih =>
    obtain ⟨i1, i2, i3, i4, i5, i6, i7⟩ := ih
    exact ⟨i1, i2, i3, i4, i5, i6, i7⟩
  | resumeClear bf2 hr2 ih =>
    obtain ⟨i1, i2, i3, i4, i5, i6, i7⟩ := ih
    exact ⟨i1, i2, i3, i4, i5, i6, i7⟩

/-- Whenever the `run` loop exits, the loop condition has just failed:
`isRunning` is false or `isPaused` is true. -/
lemma runAux_exit (oracle : ℕ → List ℕ) (pauseAt : ℕ → Bool) :
    ∀ fuel k bf bf2, BrainfuckInterpreter.runAux oracle pauseAt fuel k bf = some bf2 →
      bf2.state.isRunning = false ∨ bf2.state.isPaused = true := by
  intro fuel
  induction fuel with
  | zero =>
    intro k bf bf2 h
    exact absurd h (by simp [BrainfuckInterpreter.runAux])
  | succ n ih =>
    intro k bf bf2 h
    unfold BrainfuckInterpreter.runAux at h
    by_cases hc : bf.state.isRunning = true ∧ bf.state.isPaused = false
    · rw [if_pos hc] at h
      exact ih _ _ _ h
    · rw [if_neg hc] at h
      obtain rfl : bf = bf2 := Option.some.inj h
      cases hR : bf.state.isRunning with
      | false => exact Or.inl rfl
      | true =>
        cases hP : bf.state.isPaused with
        | true => exact Or.inr rfl
        | false => exact absurd ⟨hR, hP⟩ hc

/-- If no external `pause()` ever lands, the loop never sets `isPaused`. -/
lemma runAux_pause_free (oracle : ℕ → List ℕ) (pauseAt : ℕ → Bool)
    (hpf : ∀ j, pauseAt j = false) :
    ∀ fuel k bf bf2, bf.state.isPaused = false →
      BrainfuckInterpreter.runAux oracle pauseAt fuel k bf = some bf2 →
      bf2.state.isPaused = false := by
  intro fuel
  induction fuel with
  | zero =>
    intro k bf bf2 hP h
    exact absurd h (by simp [BrainfuckInterpreter.runAux])
  | succ n ih =>
    intro k bf bf2 hP h
    unfold BrainfuckInterpreter.runAux at h
    by_cases hc : bf.state.isRunning = true ∧ bf.state.isPaused = false
    · rw [if_pos hc] at h
      refine ih (k + 1) _ bf2 ?_ h
      have hstep := (step_preserves bf (oracle k)).2.2.2.2
      simp only [hpf k, Bool.false_eq_true, if_false]
      by_cases hcan : (bf.step (oracle k)).2.1 = true
      · rw [if_pos hcan]
        exact hstep.trans hP
      · rw [if_neg hcan]
        exact hstep.trans hP
    · rw [if_neg hc] at h
      obtain rfl : bf = bf2 := Option.some.inj h
      exact hP

/-! Claim theorems. -/

/-- C1 (counterexample): `getState()` does not return a deep copy.  With
the one-instruction program `+`, a snapshot taken before a step observes,
through its shared `memory` reference, the value written by the step
(conjunct 1); and an external write through the snapshot's `memory`
reference is what the engine itself subsequently reads (conjunct 2). -/
theorem getState_live_memory_cex :
    ((bfRefPlus.getState).readMemory (bfRefPlus.stepRef [] heap0).1).get 0
      ≠ ((bfRefPlus.getState).readMemory heap0).get 0
    ∧ (bfRefPlus.toPure (heapWrite heap0 (bfRefPlus.getState).memoryRef
          { size := 1, data := fun _ => 5 })).state.memory.get 0
      ≠ (bfRefPlus.toPure heap0).state.memory.get 0 := by
  exact ⟨by decide, by decide⟩

/-- C1 (amended): `getState()` returns a shallow copy.  The scalar fields
of the snapshot are the snapshot-time values of the engine's scalar
fields, while the `memory` field is the very reference the engine keeps
using: after any subsequent step the snapshot still observes the engine's
current memory. -/
theorem getState_shallow_copy (h : JSHeap) (bf : BrainfuckInterpreterRef) (resp : List ℕ) :
    (bf.getState).memoryRef = bf.state.memoryRef
    ∧ (bf.getState).pointer = bf.state.pointer
    ∧ (bf.getState).programCounter = bf.state.programCounter
    ∧ (bf.getState).output = bf.state.output
    ∧ (bf.getState).input = bf.state.input
    ∧ (bf.getState).inputIndex = bf.state.inputIndex
    ∧ (bf.getState).isRunning = bf.state.isRunning
    ∧ (bf.getState).isPaused = bf.state.isPaused
    ∧ (bf.stepRef resp h).2.1.state.memoryRef = (bf.getState).memoryRef
    ∧ (bf.getState).readMemory (bf.stepRef resp h).1
        = (bf.stepRef resp h).2.1.state.readMemory (bf.stepRef resp h).1 := by
  exact ⟨rfl, rfl, rfl, rfl, rfl, rfl, rfl, rfl, rfl, rfl⟩

/-- C2: construction performs no validation of its own.  Memory size 0 is
accepted (yielding a zero-length memory), and the non-integer size 5/2 is
accepted after truncation to 2; neither is rejected, contrary to the
stated fail-fast requirement. -/
theorem construction_accepts_invalid_sizes :
    mkInterpreter [] 0 false false = Except.ok (newInterpreter [] 0 false false)
    ∧ fiveHalves = 5 / 2
    ∧ mkInterpreter [] fiveHalves false false = Except.ok (newInterpreter [] 2 false false) := by
  refine ⟨rfl, ?_, rfl⟩
  apply Rat.ext <;> norm_num [fiveHalves]

/-- C3: running `++[>+++<-]>.` from the initial state (default memory
size 30000, no input) to natural termination hands the output sink
exactly the single character of code point 6, executes the loop body
(whose first instruction sits at position 3) exactly twice, and ends with
the program counter at `program.length` and `isRunning` false. -/
theorem scenarioB_output_and_loop_count :
    (runSteps [] 25 bfB).2.2 = [6]
    ∧ (runSteps [] 25 bfB).1.state.output = [6]
    ∧ ((runSteps [] 25 bfB).2.1.count 3) = 2
    ∧ (runSteps [] 25 bfB).1.state.programCounter = some progB.length
    ∧ (runSteps [] 25 bfB).1.state.isRunning = false := by
  exact ⟨by decide, by decide, by decide, by decide, by decide⟩

/-- C4 (counterexample): a `run()` loop that exits because of a `pause()`
request leaves `isRunning` true.  With program `+` and a pause landing in
the first iteration's yield, the loop exits at the next condition check
with `isRunning` still true. -/
theorem run_pause_exit_cex :
    ((newInterpreter ('+' :: []) 1 false false).run (fun _ => []) (fun _ => true) 3).map
      (fun bf => bf.state.isRunning) = some true := by
  decide

/-- C4 (amended): whenever the `run()` loop exits, `isRunning` is false or
`isPaused` is true (the loop condition has failed); in particular, if no
`pause()` request ever lands, every exit has `isRunning` false. -/
theorem run_exit_flags (oracle : ℕ → List ℕ) (pauseAt : ℕ → Bool) (fuel : ℕ)
    (bf bf2 : BrainfuckInterpreter)
    (h : bf.run oracle pauseAt fuel = some bf2) :
    (bf2.state.isRunning = false ∨ bf2.state.isPaused = true)
    ∧ ((∀ j, pauseAt j = false) → bf2.state.isRunning = false) := by
  constructor
  · exact runAux_exit oracle pauseAt fuel 0 _ bf2 h
  · intro hpf
    have hP : bf2.state.isPaused = false :=
      runAux_pause_free oracle pauseAt hpf fuel 0 _ bf2 rfl h
    rcases runAux_exit oracle pauseAt fuel 0 _ bf2 h with hR | hP2
    · exact hR
    · rw [hP] at hP2
      exact absurd hP2 (by decide)

/-- C4 (witness): the empty program runs to termination in two loop
iterations and exits with `isRunning` false. -/
theorem run_exit_flags_witness :
    (newInterpreter ([] : List Char) 1 false false).state.isRunning = false := by
  have h : (newInterpreter ([] : List Char) 1 false false).run
      (fun _ => []) (fun _ => false) 2 = some (newInterpreter ([] : List Char) 1 false false) :=
    rfl
  exact (run_exit_flags (fun _ => []) (fun _ => false) 2 _ _ h).2 (fun j => rfl)

/-- C5: in every state reachable from a freshly constructed interpreter
with positive memory size, the pointer is strictly below `memory.length`
(it is a `ℕ`, so `0 <= pointer` holds by type); and the `>` and `<`
instructions move it exactly by the wrapping-modulo formulas of the
source (the `<` formula is the `ℕ`-shifted form of
`(pointer - 1 + length) % length`). -/
theorem pointer_in_range (p : List Char) (m : ℕ) (ho hi : Bool)
    (bf : BrainfuckInterpreter) (resp : List ℕ) (q : ℕ) (hm : 0 < m)
    (h : Reachable (newInterpreter p m ho hi) bf) :
    bf.state.pointer < bf.state.memory.length
    ∧ (bf.state.programCounter = some q → q < bf.program.length →
        bf.program.getD q ' ' = '>' →
        (bf.step resp).1.state.pointer = (bf.state.pointer + 1) % bf.state.memory.length)
    ∧ (bf.state.programCounter = some q → q < bf.program.length →
        bf.program.getD q ' ' = '<' →
        (bf.step resp).1.state.pointer =
          (bf.state.pointer + bf.state.memory.length - 1) % bf.state.memory.length) := by
  have hInv := reachable_inv p m ho hi _ bf h (newInterpreter_inv p m ho hi)
  obtain ⟨hp, hho, hhi, hmem, hptr, hpcle, hstk⟩ := hInv
  refine ⟨?_, ?_, ?_⟩
  · have hlen : bf.state.memory.length = m := hmem
    rw [hlen]
    exact hptr hm
  · intro hpc hlt hc
    rw [step_of_pc bf resp q hpc, if_neg (by omega), execInstr_gt bf resp q hc]
  · intro hpc hlt hc
    rw [step_of_pc bf resp q hpc, if_neg (by omega), execInstr_lt bf resp q hc]

/-- C5 (witness): the freshly constructed interpreter for `>` with memory
size 2 satisfies the pointer bound. -/
theorem pointer_in_range_witness :
    (newInterpreter ('>' :: []) 2 false false).state.pointer <
      (newInterpreter ('>' :: []) 2 false false).state.memory.length := by
  exact (pointer_in_range ('>' :: []) 2 false false _ [] 0 (by decide) (Reachable.refl _)).1

/-- C6: after any execution history, `reset()` restores exactly the
construction-time interpreter: zero memory of the same length, pointer 0,
counter 0, empty output and input, `inputIndex` 0, both flags false, and
an empty loop stack; `getState()` after the reset returns the
construction-time state. -/
theorem reset_restores_initial (p : List Char) (m : ℕ) (ho hi : Bool)
    (bf : BrainfuckInterpreter)
    (h : Reachable (newInterpreter p m ho hi) bf) :
    bf.reset = newInterpreter p m ho hi
    ∧ bf.reset.getState = (newInterpreter p m ho hi).getState := by
  have hInv := reachable_inv p m ho hi _ bf h (newInterpreter_inv p m ho hi)
  obtain ⟨hp, hho, hhi, hmem, -, -, -⟩ := hInv
  have hmain : bf.reset = newInterpreter p m ho hi := by
    show BrainfuckInterpreter.mk
        (BrainfuckState.mk (Uint8Array.mk bf.state.memory.size (fun _ => 0))
          0 (some 0) [] [] 0 false false)
        bf.program [] bf.hasOnOutput bf.hasOnInputRequest
      = newInterpreter p m ho hi
    rw [hp, hho, hhi, hmem]
    rfl
  exact ⟨hmain, congrArg BrainfuckInterpreter.getState hmain⟩

/-- C6 (witness): stepping the program `+` once and resetting restores
the construction-time interpreter. -/
theorem reset_restores_initial_witness :
    ((newInterpreter ('+' :: []) 3 false false).step []).1.reset
      = newInterpreter ('+' :: []) 3 false false := by
  exact (reset_restores_initial ('+' :: []) 3 false false _
    (Reachable.step _ _ [] (Reachable.refl _))).1

/-- C7 (counterexample): with no input source bound, a non-exhausted `,`
does not in general write the character's code unit into the cell: for
the buffered character `'Ā'` (code unit 256), the `Uint8Array` store
clamps the value to a byte and the cell receives 0, although `inputIndex`
does advance by 1. -/
theorem comma_charcode_clamped_cex :
    (bfCommaHi.step []).1.state.memory.get bfCommaHi.state.pointer
      ≠ bfCommaHi.state.input.getD bfCommaHi.state.inputIndex 0
    ∧ (bfCommaHi.step []).1.state.inputIndex = bfCommaHi.state.inputIndex + 1 := by
  exact ⟨by decide, by decide⟩

/-- C7 (amended): a `,` with no input source bound and the buffer
exhausted writes 0 into the current cell, leaving `inputIndex` and
`input` unchanged; with the buffer not exhausted it writes the buffered
character's code unit reduced mod 256 (the `Uint8Array` store coerces to
a byte — the code itself for characters below 256) and advances
`inputIndex` by exactly 1. -/
theorem comma_semantics (bf : BrainfuckInterpreter) (resp : List ℕ) (q : ℕ)
    (hno : bf.hasOnInputRequest = false)
    (hpc : bf.state.programCounter = some q)
    (hlt : q < bf.program.length)
    (hc : bf.program.getD q ' ' = ',')
    (hptr : bf.state.pointer < bf.state.memory.size) :
    (bf.state.input.length ≤ bf.state.inputIndex →
        (bf.step resp).1.state.memory.get bf.state.pointer = 0
        ∧ (bf.step resp).1.state.inputIndex = bf.state.inputIndex
        ∧ (bf.step resp).1.state.input = bf.state.input)
    ∧ (bf.state.inputIndex < bf.state.input.length →
        (bf.step resp).1.state.memory.get bf.state.pointer
          = (bf.state.input.getD bf.state.inputIndex 0) % 256
        ∧ (bf.step resp).1.state.inputIndex = bf.state.inputIndex + 1
        ∧ (bf.step resp).1.state.input = bf.state.input) := by
  rw [step_of_pc bf resp q hpc, if_neg (by omega), execInstr_comma bf resp q hc]
  simp only [commaInstr, hno, Bool.false_eq_true, false_and, if_false]
  constructor
  · intro hex
    rw [if_neg (by omega)]
    refine ⟨?_, rfl, rfl⟩
    rw [Uint8Array.get_set_self _ _ _ hptr]
  · intro hlt2
    rw [if_pos hlt2]
    refine ⟨?_, rfl, rfl⟩
    rw [Uint8Array.get_set_self _ _ _ hptr]

/-- C7 (witness): with the plain character `'A'` (code 65) buffered, the
non-exhausted `,` writes 65 and advances `inputIndex` from 0 to 1. -/
theorem comma_semantics_witness :
    (bfCommaA.step []).1.state.memory.get bfCommaA.state.pointer
      = (bfCommaA.state.input.getD bfCommaA.state.inputIndex 0) % 256
    ∧ (bfCommaA.step []).1.state.inputIndex = bfCommaA.state.inputIndex + 1 := by
  have t := comma_semantics bfCommaA [] 0 rfl rfl (by decide) (by decide) (by decide)
  exact ⟨(t.2 (by decide)).1, (t.2 (by decide)).2.1⟩

/-- C8: for the lone program `]` with the (zero-initialized) current cell
0, the first `step()` returns `true`: the pop on the empty loop stack is
a harmless no-op and leaves the stack empty, the program counter advances
to `program.length`, and the next `step()` returns `false` with
`isRunning` set to false (natural termination).  Every operation involved
is total — nothing is raised. -/
theorem scenarioD_unmatched_close :
    (bfD.step []).2.1 = true
    ∧ (bfD.step []).1.state.programCounter = some bfD.program.length
    ∧ (bfD.step []).1.loopStack = []
    ∧ ((bfD.step []).1.step []).2.1 = false
    ∧ ((bfD.step []).1.step []).1.state.isRunning = false := by
  exact ⟨by decide, by decide, by decide, by decide, by decide⟩

/-- C9: in every reachable state the program counter, when it is a
number, is at most `program.length` (never strictly beyond); and a `[`
over a zero cell whose forward scan runs to the end of the program leaves
the counter at exactly `program.length`, so the very next `step()`
reports natural termination by returning `false`. -/
theorem pc_never_exceeds_length (p : List Char) (m : ℕ) (ho hi : Bool)
    (bf : BrainfuckInterpreter) (resp resp2 : List ℕ) (q : ℕ) :
    (Reachable (newInterpreter p m ho hi) bf →
      ∀ r, bf.state.programCounter = some r → r ≤ bf.program.length)
    ∧ (bf.state.programCounter = some q → q < bf.program.length →
        bf.program.getD q ' ' = '[' → bf.state.memory.get bf.state.pointer = 0 →
        scanLoop bf.program (q + 1) 1 = bf.program.length →
        (bf.step resp).1.state.programCounter = some bf.program.length
        ∧ ((bf.step resp).1.step resp2).2.1 = false) := by
  constructor
  · intro h r hr
    have hInv := reachable_inv p m ho hi _ bf h (newInterpreter_inv p m ho hi)
    obtain ⟨hp, -, -, -, -, hpcle, -⟩ := hInv
    have hr2 := hpcle r hr
    rw [hp]
    exact hr2
  · intro hpc hlt hc hz hscan
    have hge := scanLoop_ge bf.program (q + 1) 1
    have hstep1 : (bf.step resp).1.state.programCounter = some bf.program.length := by
      rw [step_of_pc bf resp q hpc, if_neg (by omega), execInstr_lbracket bf resp q hc,
        if_pos hz]
      show some (scanLoop bf.program (q + 1) 1 - 1 + 1) = some bf.program.length
      rw [Nat.sub_add_cancel (by omega), hscan]
    refine ⟨hstep1, ?_⟩
    have hprog : (bf.step resp).1.program = bf.program := (step_preserves bf resp).1
    rw [step_of_pc ((bf.step resp).1) resp2 bf.program.length hstep1,
      if_pos (by rw [hprog])]

/-- C9 (witness): the one-instruction program `[` over a zero cell: the
scan runs off the end, the step lands the counter exactly at
`program.length` = 1, and the next step returns `false`. -/
theorem pc_never_exceeds_length_witness :
    (∀ r, (newInterpreter ('[' :: []) 1 false false).state.programCounter = some r →
      r ≤ (newInterpreter ('[' :: []) 1 false false).program.length)
    ∧ ((newInterpreter ('[' :: []) 1 false false).step []).1.state.programCounter
        = some (newInterpreter ('[' :: []) 1 false false).program.length
    ∧ (((newInterpreter ('[' :: []) 1 false false).step []).1.step []).2.1 = false := by
  have t := pc_never_exceeds_length ('[' :: []) 1 false false
    (newInterpreter ('[' :: []) 1 false false) [] [] 0
  refine ⟨t.1 (Reachable.refl _), ?_, ?_⟩
  · exact (t.2 rfl (by decide) (by decide) (by decide) (by decide)).1
  · exact (t.2 rfl (by decide) (by decide) (by decide) (by decide)).2

/-- C10: a single `step()` only ever appends to `output` and `input` —
the old values are prefixes of the new ones in every state, whatever the
instruction and whatever text an input request resolves with; only
`reset()` clears them (to empty). -/
theorem step_appends_output_and_input (bf : BrainfuckInterpreter) (resp : List ℕ) :
    bf.state.output <+: (bf.step resp).1.state.output
    ∧ bf.state.input <+: (bf.step resp).1.state.input
    ∧ bf.reset.state.output = [] ∧ bf.reset.state.input = [] := by
  have main : bf.state.output <+: (bf.step resp).1.state.output
      ∧ bf.state.input <+: (bf.step resp).1.state.input := by
    cases hpc : bf.state.programCounter with
    | none =>
      rw [step_none bf resp hpc]
      exact ⟨⟨[], List.append_nil _⟩, ⟨[], List.append_nil _⟩⟩
    | some q =>
      rw [step_of_pc bf resp q hpc]
      by_cases hq : bf.program.length ≤ q
      · rw [if_pos hq]
        exact ⟨⟨[], List.append_nil _⟩, ⟨[], List.append_nil _⟩⟩
      · rw [if_neg hq]
        by_cases h1 : bf.program.getD q ' ' = '>'
        · rw [execInstr_gt bf resp q h1]
          exact ⟨⟨[], List.append_nil _⟩, ⟨[], List.append_nil _⟩⟩
        by_cases h2 : bf.program.getD q ' ' = '<'
        · rw [execInstr_lt bf resp q h2]
          exact ⟨⟨[], List.append_nil _⟩, ⟨[], List.append_nil _⟩⟩
        by_cases h3 : bf.program.getD q ' ' = '+'
        · rw [execInstr_plus bf resp q h3]
          exact ⟨⟨[], List.append_nil _⟩, ⟨[], List.append_nil _⟩⟩
        by_cases h4 : bf.program.getD q ' ' = '-'
        · rw [execInstr_minus bf resp q h4]
          exact ⟨⟨[], List.append_nil _⟩, ⟨[], List.append_nil _⟩⟩
        by_cases h5 : bf.program.getD q ' ' = '.'
        · rw [execInstr_dot bf resp q h5]
          exact ⟨⟨[bf.state.memory.get bf.state.pointer], rfl⟩, ⟨[], List.append_nil _⟩⟩
        by_cases h6 : bf.program.getD q ' ' = ','
        · rw [execInstr_comma bf resp q h6]
          simp only [commaInstr]
          split_ifs <;>
            first
              | exact ⟨⟨[], List.append_nil _⟩, ⟨resp, rfl⟩⟩
              | exact ⟨⟨[], List.append_nil _⟩, ⟨[], List.append_nil _⟩⟩
        by_cases h7 : bf.program.getD q ' ' = '['
        · rw [execInstr_lbracket bf resp q h7]
          split_ifs <;> exact ⟨⟨[], List.append_nil _⟩, ⟨[], List.append_nil _⟩⟩
        by_cases h8 : bf.program.getD q ' ' = ']'
        · rw [execInstr_rbracket bf resp q h8]
          split_ifs <;> exact ⟨⟨[], List.append_nil _⟩, ⟨[], List.append_nil _⟩⟩
        rw [execInstr_other bf resp q h1 h2 h3 h4 h5 h6 h7 h8]
        exact ⟨⟨[], List.append_nil _⟩, ⟨[], List.append_nil _⟩⟩
  exact ⟨main.1, main.2, rfl, rfl⟩
